import Mathlib

/-!
Shallow embedding of the EasyCpp repository (C14147/EasyCpp).

Embedded components:
* `src/List/List.h` — the heterogeneous container `easycpp::List`, which keeps
  a vector `data : std::vector<std::any>` of type-erased values next to a
  parallel vector `types : std::vector<const std::type_info*>` of type
  discriminators.
* `src/FileOperator/FileOperator.h` — the `easycpp::open` routine and the
  `access`-based permission predicates it calls.

Modelling conventions:
* A `std::any` is `Option Dyn`: `none` is an engaged-empty `std::any`
  (`has_value() == false`), `some d` is an `std::any` holding the dynamic
  value `d`.  `Dyn` carries its own dynamic type tag, exactly as `std::any`
  records the `typeid` of its contents; `double` payloads are abstracted to
  opaque codes (`Nat`), since no verified claim depends on floating-point
  arithmetic, only on type-tag discrimination and payload equality.
* A `const std::type_info*` entry is a `Ty`.  Distinct C++ types map to
  distinct `Ty` values, and pointer/value comparison of `type_info` is
  modelled by decidable equality on `Ty`.
* Thrown C++ exceptions become `Except` error values.  Each distinct C++
  throw is modelled by the pair of its exception type and its message, so two
  throws are distinguishable in the model exactly when a caller could tell
  them apart by exception type or carried message.
* Operating-system calls (`access`, `fopen_s`) are abstracted into an `OS`
  environment of boolean oracles, universally quantified in the theorems.
-/

namespace EasyCpp

/-- Runtime type discriminator: models a `const std::type_info*` entry of
`easycpp::List::types`.  The three types that `join` and `operator<<`
special-case are distinguished; every other C++ type is `tOther id` for some
identifier. -/
inductive Ty where
  | tInt
  | tDouble
  | tString
  | tOther (id : Nat)
deriving DecidableEq, Repr

/-- A dynamic (type-erased) value held inside a non-empty `std::any`.  The
`double` payload is an opaque bit code: claims about the list exercise only
equality of doubles (C++ `==` on two copies of the same stored value), never
floating-point arithmetic or formatting. -/
inductive Dyn where
  | dInt (n : Int)
  | dDouble (bits : Nat)
  | dString (s : String)
  | dOther (id : Nat) (payload : Nat)
deriving DecidableEq, Repr

/-- The dynamic type recorded by `std::any` for a stored value: `typeid(T)`
of the static type `T` the value was stored with. -/
def Dyn.tag : Dyn → Ty
  | .dInt _ => .tInt
  | .dDouble _ => .tDouble
  | .dString _ => .tString
  | .dOther id _ => .tOther id

/-- C++ standard-library exceptions thrown by `easycpp::List`, modelled by
exception type plus carried message.  `std::bad_any_cast` carries no
message. -/
inductive CppError where
  | outOfRange (message : String)
  | invalidArgument (message : String)
  | badAnyCast
deriving DecidableEq, Repr

/-- The state of an `easycpp::List` (source class `List` in
`src/List/List.h`; named `EList` here because `List` collides with the Lean
core list type): the vector `data` of type-erased values and the parallel
vector `types` of discriminators. -/
structure EList where
  data : List (Option Dyn)
  types : List Ty
deriving DecidableEq, Repr

namespace EList

/-- `List::size()`: `data.size()`. -/
def size (l : EList) : Nat := l.data.length

/-- `List::empty()`: `data.empty()`. -/
def isEmptyList (l : EList) : Bool := l.data.isEmpty

/-- `List::append<T>(value)`: pushes `std::any(value)` onto `data` and
`&typeid(T)` onto `types`.  The `std::any` constructed from a `T` records
dynamic type `T`, so the pushed discriminator is the tag of the pushed
value. -/
def append (l : EList) (d : Dyn) : EList :=
  ⟨l.data ++ [some d], l.types ++ [d.tag]⟩

/-- `List::extend(other)`: appends the other list entries to both vectors. -/
def extend (l other : EList) : EList :=
  ⟨l.data ++ other.data, l.types ++ other.types⟩

/-- `List::insert<T>(index, value)`: when `index <= data.size()`, inserts
`std::any(value)` at `index` in `data` and `&typeid(T)` at `index` in
`types`; otherwise does nothing. -/
def insert (l : EList) (index : Nat) (d : Dyn) : EList :=
  if index ≤ l.data.length then
    ⟨l.data.insertIdx index (some d), l.types.insertIdx index d.tag⟩
  else l

/-- `List::remove<T>(value)`: `std::find_if` over `data` with predicate
`std::any_cast<T>(&element) && *std::any_cast<T>(&element) == value` — the
element engages, holds dynamic type `T` and compares equal to `value`, which
is exactly equality with `some value` in the model; the predicate never reads
`types`.  On a hit, erases the found position from both vectors. -/
def remove (l : EList) (d : Dyn) : EList :=
  match l.data.findIdx? (fun a => decide (a = some d)) with
  | some i => ⟨l.data.eraseIdx i, l.types.eraseIdx i⟩
  | none => l

/-- Shared tail of `List::pop`: after the optional index is resolved, the
code checks `index.value() < data.size()`, saves `data[index]`, erases the
position from both vectors and returns the saved value; otherwise it throws
`std::out_of_range("Index out of range")`. -/
def popAt (l : EList) (index : Nat) : Except CppError (Option Dyn × EList) :=
  if index < l.data.length then
    .ok (l.data.getD index none, ⟨l.data.eraseIdx index, l.types.eraseIdx index⟩)
  else
    .error (.outOfRange "Index out of range")

/-- `List::pop(std::optional<size_t> index)`: with no index, an empty list
throws `std::out_of_range("List is empty, cannot pop.")`, otherwise the
index defaults to `data.size() - 1`; then the shared bounds-checked erase
runs. -/
def pop (l : EList) (index : Option Nat) : Except CppError (Option Dyn × EList) :=
  match index with
  | none =>
      if l.data.isEmpty then
        .error (.outOfRange "List is empty, cannot pop.")
      else
        popAt l (l.data.length - 1)
  | some i => popAt l i

/-- `List::clear()`: clears both vectors. -/
def clear (_l : EList) : EList := ⟨[], []⟩

/-- `List::reverse()`: `std::reverse` on both vectors. -/
def reverse (l : EList) : EList :=
  ⟨l.data.reverse, l.types.reverse⟩

/-- Loop body of `List::index<T>(value, start)`: for `i` from `start` while
`i < data.size()`, the slot matches when
`*types[i] == typeid(T) && std::any_cast<T>(&data[i]) && *std::any_cast<T>(&data[i]) == value`,
that is: the recorded discriminator equals `typeid(T)` and the `std::any`
holds exactly the searched dynamic value.  A miss of the whole loop throws
`std::invalid_argument("Value not found")`.  (Reading `types[i]` past the
vector end is C++ UB; the model totalises it with a default, unreachable
when both vectors have equal length.) -/
def indexGo (types : List Ty) (d : Dyn) :
    List (Option Dyn) → Nat → Except CppError Nat
  | [], _ => .error (.invalidArgument "Value not found")
  | a :: rest, i =>
    if types.getD i (.tOther 0) = d.tag ∧ a = some d then
      .ok i
    else
      indexGo types d rest (i + 1)

/-- `List::index<T>(value, start)` (the C++ default for `start` is `0`): the
loop runs over the suffix of `data` from position `start`, with `i` the
absolute position of the head of the remaining suffix. -/
def index (l : EList) (d : Dyn) (start : Nat) : Except CppError Nat :=
  indexGo l.types d (l.data.drop start) start

/-- `List::count<T>(value)`: counts the positions `i < data.size()` whose
slot satisfies the same type-qualified match as `index`. -/
def count (l : EList) (d : Dyn) : Nat :=
  ((List.range l.data.length).filter
    (fun i => decide (l.types.getD i (.tOther 0) = d.tag) &&
              decide (l.data.getD i none = some d))).length

/-- `List::get<T>(index)`: when `index < data.size()` and
`*types[index] == typeid(T)`, returns `std::any_cast<T>(data[index])` — a
by-value cast that itself throws `std::bad_any_cast` when the `std::any`
does not hold a `T`; in every other case the method throws
`std::bad_any_cast()` from its single explicit throw site.  Both failure
paths produce the same exception value. -/
def get (l : EList) (t : Ty) (index : Nat) : Except CppError Dyn :=
  if index < l.data.length ∧ l.types.getD index (.tOther 0) = t then
    match l.data.getD index none with
    | some d => if d.tag = t then .ok d else .error .badAnyCast
    | none => .error .badAnyCast
  else
    .error .badAnyCast

/-- Rendering used by `join` for a `typeid` name: `type_info::name()` is
implementation-defined text, abstracted to a stable name per tag. -/
def typeName : Ty → String
  | .tInt => "i"
  | .tDouble => "d"
  | .tString => "Ss"
  | .tOther id => "T" ++ toString id

/-- Rendering used by `join` for `std::to_string(double)`: the concrete
decimal expansion of a C++ `double` is outside the integer model, so the
opaque bit code is rendered through an abstract but fixed function. -/
def doubleText (bits : Nat) : String := "dbl:" ++ toString bits

/-- Placeholder for `std::to_string((long long)&this->data[i])` in the
`join` fallback branch: a runtime memory address, not representable in the
model; no claim depends on this branch output. -/
def addrText : String := "0"

/-- Rendering of one engaged slot inside `List::join`: dispatch on the
pointer comparison of the recorded discriminator against `&typeid(int)` /
`&typeid(double)` / `&typeid(std::string)`, where the matching branch
performs a by-value `std::any_cast` (throwing `std::bad_any_cast` when the
dynamic content disagrees with the discriminator) and the fallback branch
renders `"(" + name + " at " + address + ")"`. -/
def renderSlot (t : Ty) (d : Dyn) : Except CppError String :=
  match t with
  | .tInt =>
    match d with
    | .dInt n => .ok (toString n)
    | _ => .error .badAnyCast
  | .tDouble =>
    match d with
    | .dDouble b => .ok (doubleText b)
    | _ => .error .badAnyCast
  | .tString =>
    match d with
    | .dString s => .ok s
    | _ => .error .badAnyCast
  | .tOther id =>
    .ok ("(" ++ typeName (.tOther id) ++ " at " ++ addrText ++ ")")

/-- Loop of `List::join(separator)` over the remaining suffix of `data`,
with `i` the absolute position of the suffix head: first
`result += separator` when `i > 0`; then an engaged slot appends its
rendering (or throws), while an empty slot overwrites the whole accumulated
`result` with `""`. -/
def joinGo (types : List Ty) (sep : String) :
    List (Option Dyn) → Nat → String → Except CppError String
  | [], _, acc => .ok acc
  | a :: rest, i, acc =>
    match a with
    | some d =>
      match renderSlot (types.getD i (.tOther 0)) d with
      | .ok piece =>
        joinGo types sep rest (i + 1)
          ((if 0 < i then acc ++ sep else acc) ++ piece)
      | .error e => .error e
    | none => joinGo types sep rest (i + 1) ""

/-- `List::join(separator)`: the loop runs over the whole of `data`, with
`i` the absolute position of the head of the remaining suffix. -/
def join (l : EList) (sep : String) : Except CppError String :=
  joinGo l.types sep l.data 0 ""

/-- The lockstep well-formedness invariant of the class: the two parallel
vectors have equal length. -/
def wf (l : EList) : Prop := l.data.length = l.types.length

/-- The slots of a list: value and discriminator paired positionally. -/
def slots (l : EList) : List (Option Dyn × Ty) := l.data.zip l.types

/-- Consistency of discriminators: every engaged slot carries the
discriminator of the dynamic type actually stored in it.  Every state
reachable through the public mutators has this property; it can only be
broken through the unchecked `operator[]` reference. -/
def consistent (l : EList) : Prop :=
  ∀ i d, l.data.getD i none = some d → l.types.getD i (.tOther 0) = d.tag

end EList

/-! FileOperator embedding (`src/FileOperator/FileOperator.h`). -/

/-- Mode string macro `READ` (`"r"`). -/
def READ : String := "r"

/-- Mode string macro `READ_E` (`"r+"`). -/
def READ_E : String := "r+"

/-- Mode string macro `WRITE` (`"w"`). -/
def WRITE : String := "w"

/-- access-flag macro `F_OK` (existence check). -/
def F_OK : Nat := 0

/-- access-flag macro `X_OK` (execute permission). -/
def X_OK : Nat := 1

/-- access-flag macro `W_OK` (write permission). -/
def W_OK : Nat := 2

/-- access-flag macro `R_OK` (read permission). -/
def R_OK : Nat := 4

/-- Macro `FILE_NOT_PERMISSION` (`"have permission"`). -/
def FILE_NOT_PERMISSION : String := "have permission"

/-- The operating-system environment seen by FileOperator: `access` is true
on a path/flag pair exactly when the C `access` call returns `0`, and
`fopenOk` is true on a path/mode pair exactly when `fopen_s` returns no
error. -/
structure OS where
  access : String → Nat → Bool
  fopenOk : String → String → Bool

/-- `easycpp::is_exist(filename)`: `access(filename, F_OK) == 0`. -/
def is_exist (os : OS) (filename : String) : Bool := os.access filename F_OK

/-- `easycpp::is_readable(filename)`: `access(filename, R_OK) == 0`. -/
def is_readable (os : OS) (filename : String) : Bool := os.access filename R_OK

/-- `easycpp::is_writable(filename)`: `access(filename, W_OK) == 0`. -/
def is_writable (os : OS) (filename : String) : Bool := os.access filename W_OK

/-- `easycpp::check_permission(filename)`:
`access(filename, R_OK | W_OK) == 0`. -/
def check_permission (os : OS) (filename : String) : Bool :=
  os.access filename (R_OK ||| W_OK)

/-- Exceptions of FileOperator, one constructor per exception class, each
carrying the message its constructor formats with `sprintf`. -/
inductive FileError where
  | fileNotExist (message : String)
  | filePermission (message : String)
  | fileWrite (message : String)
  | fileUnknown (message : String)
deriving DecidableEq, Repr

/-- Message formatted by `FileNotExistError(msg)`:
`"The file '%s' does not exist."`. -/
def fileNotExistMessage (msg : String) : String :=
  "The file \x27" ++ msg ++ "\x27 does not exist."

/-- Message formatted by `FilePermissionError(msg)` with the default
permission argument: `"The file '%s' does not %s."`. -/
def filePermissionMessage (msg : String) : String :=
  "The file \x27" ++ msg ++ "\x27 does not " ++ FILE_NOT_PERMISSION ++ "."

/-- Message formatted by `FileUnknownError(msg)`:
`"Can't open the file with fopen_s function:'%s'"`. -/
def fileUnknownMessage (msg : String) : String :=
  "Can\x27t open the file with fopen_s function:\x27" ++ msg ++ "\x27"

/-- An `easycpp::File` object as returned by a successful `open`: the native
handle is abstracted away, the remembered filename copy is kept. -/
structure File where
  filename : String
deriving DecidableEq, Repr

deriving instance DecidableEq for Except

/-- Outcome of `easycpp::open`, together with the observable fact of whether
the native `fopen_s` call was reached. -/
structure OpenResult where
  nativeAttempted : Bool
  result : Except FileError File
deriving DecidableEq, Repr

/-- Tail of `easycpp::open` shared by all modes: `fopen_s` runs; a nonzero
`errno_t` throws `FileUnknownError(filename)`, otherwise a `File` is built
from the handle and filename. -/
def nativeOpen (os : OS) (filename method : String) : OpenResult :=
  if os.fopenOk filename method then
    ⟨true, .ok ⟨filename⟩⟩
  else
    ⟨true, .error (.fileUnknown (fileUnknownMessage filename))⟩

/-- `easycpp::open(filename, method)` (named `openFile` because `open` is a
Lean keyword): when the mode compares equal to `READ` or `READ_E`, first
`is_exist` is consulted (throwing `FileNotExistError` on failure), then
`check_permission` (throwing `FilePermissionError` on failure), both before
`fopen_s`; every surviving path then performs the native open. -/
def openFile (os : OS) (filename method : String) : OpenResult :=
  if method = READ ∨ method = READ_E then
    if is_exist os filename = false then
      ⟨false, .error (.fileNotExist (fileNotExistMessage filename))⟩
    else if check_permission os filename = false then
      ⟨false, .error (.filePermission (filePermissionMessage filename))⟩
    else
      nativeOpen os filename method
  else
    nativeOpen os filename method

/-! Helper lemmas. -/

/-- Erasing the same position from two equal-length lists erases that
position from their zip. -/
lemma zip_eraseIdx {α β : Type} :
    ∀ (i : Nat) (xs : List α) (ys : List β), xs.length = ys.length →
      (xs.eraseIdx i).zip (ys.eraseIdx i) = (xs.zip ys).eraseIdx i
  | _, [], [], _ => by simp
  | _, [], _ :: _, h => by simp at h
  | _, _ :: _, [], h => by simp at h
  | 0, _ :: _, _ :: _, _ => by simp
  | i + 1, x :: xs, y :: ys, h => by
      simp only [List.eraseIdx_cons_succ, List.zip_cons_cons]
      rw [zip_eraseIdx i xs ys (by simpa using h)]

/-- Inserting at the same admissible position into two equal-length lists
inserts the pair at that position of their zip. -/
lemma zip_insertIdx {α β : Type} (a : α) (b : β) :
    ∀ (i : Nat) (xs : List α) (ys : List β), xs.length = ys.length →
      i ≤ xs.length →
      (xs.insertIdx i a).zip (ys.insertIdx i b) = (xs.zip ys).insertIdx i (a, b)
  | 0, xs, ys, _, _ => by simp [List.insertIdx_zero]
  | i + 1, [], ys, h, hi => by simp at hi
  | i + 1, x :: xs, [], h, hi => by simp at h
  | i + 1, x :: xs, y :: ys, h, hi => by
      simp only [List.insertIdx_succ_cons, List.zip_cons_cons]
      rw [zip_insertIdx a b i xs ys (by simpa using h) (by simpa using hi)]

/-- Reversing two equal-length lists reverses their zip. -/
lemma zip_reverse {α β : Type} (xs : List α) (ys : List β)
    (h : xs.length = ys.length) :
    xs.reverse.zip ys.reverse = (xs.zip ys).reverse :=
  (List.reverse_zipWith h).symm

/-- The successful outcome of the `index` search loop: the returned position
is at or after the head position of the scanned suffix, its recorded
discriminator is the searched `typeid`, and the scanned suffix holds exactly
the searched dynamic value there. -/
lemma indexGo_ok_spec (types : List Ty) (d : Dyn) :
    ∀ (rest : List (Option Dyn)) (s j : Nat),
      EList.indexGo types d rest s = .ok j →
      ∃ k, j = s + k ∧ types.getD j (.tOther 0) = d.tag ∧
        rest.getD k none = some d
  | [], s, j, h => by simp [EList.indexGo] at h
  | a :: rest, s, j, h => by
      rw [EList.indexGo] at h
      by_cases hc : types.getD s (.tOther 0) = d.tag ∧ a = some d
      · rw [if_pos hc] at h
        obtain rfl : s = j := by simpa using h
        exact ⟨0, by simpa using hc⟩
      · rw [if_neg hc] at h
        obtain ⟨k, rfl, ht, hr⟩ := indexGo_ok_spec types d rest (s + 1) j h
        exact ⟨k + 1, by omega, by simpa [Nat.add_assoc] using ht, by simpa using hr⟩

/-- The successful outcome of `List::index`: the hit is at or after `start`,
its discriminator is the searched `typeid`, and `data` holds exactly the
searched dynamic value there. -/
lemma index_ok_spec (l : EList) (d : Dyn) (s j : Nat)
    (h : l.index d s = .ok j) :
    s ≤ j ∧ l.types.getD j (.tOther 0) = d.tag ∧ l.data.getD j none = some d := by
  obtain ⟨k, rfl, ht, hr⟩ := indexGo_ok_spec l.types d (l.data.drop s) s j h
  refine ⟨Nat.le_add_right s k, ht, ?_⟩
  simpa [List.getElem?_drop] using hr

/-- Inserting at an admissible position splits the list around the inserted
element. -/
lemma insertIdx_split {α : Type} (a : α) :
    ∀ (i : Nat) (l : List α), i ≤ l.length →
      l.insertIdx i a = l.take i ++ a :: l.drop i
  | 0, l, _ => by simp
  | i + 1, [], h => by simp at h
  | i + 1, x :: l, h => by
      simp only [List.insertIdx_succ_cons, List.take_succ_cons,
        List.drop_succ_cons, List.cons_append]
      rw [insertIdx_split a i l (by simpa using h)]

/-- A predicate that implies another, and fails somewhere the other holds,
counts strictly fewer list positions. -/
lemma countP_lt_of_gap {α : Type} (p q : α → Bool) :
    ∀ (l : List α), (∀ x ∈ l, p x = true → q x = true) →
      ∀ x ∈ l, q x = true → p x = false → l.countP p < l.countP q
  | [], _, x, hx, _, _ => by simp at hx
  | a :: l, himp, x, hx, hq, hp => by
      rcases List.mem_cons.mp hx with rfl | hmem
      · have hle : l.countP p ≤ l.countP q :=
          List.countP_mono_left (fun y hy => himp y (List.mem_cons_of_mem _ hy))
        simp [List.countP_cons, hp, hq]
        omega
      · have hlt := countP_lt_of_gap p q l
          (fun y hy => himp y (List.mem_cons_of_mem _ hy)) x hmem hq hp
        have hca : (if p a = true then 1 else 0) ≤ (if q a = true then 1 else 0) := by
          by_cases hpa : p a = true
          · simp [hpa, himp a (List.mem_cons_self a l) hpa]
          · simp [hpa]
        rw [List.countP_cons, List.countP_cons]
        omega

/-! Theorems for the specification claims. -/

/-- C9: for every list, calling `reverse()` twice returns the list to its
original state, both the slot values and the discriminators (`reverse` is an
involution). -/
theorem C9_reverse_involution (l : EList) : l.reverse.reverse = l := by
  cases l with
  | mk data types => simp [EList.reverse]

/-- C3: `pop()` with no index on an empty list throws
`std::out_of_range("List is empty, cannot pop.")`, while `pop(0)` on an
empty list throws `std::out_of_range("Index out of range")`; the two thrown
error values are distinct (same exception class, different messages). -/
theorem C3_pop_empty_errors (l : EList) (h : l.data = []) :
    l.pop none = .error (.outOfRange "List is empty, cannot pop.") ∧
    l.pop (some 0) = .error (.outOfRange "Index out of range") ∧
    CppError.outOfRange "List is empty, cannot pop." ≠
      CppError.outOfRange "Index out of range" := by
  refine ⟨?_, ?_, by decide⟩
  · simp [EList.pop, h]
  · simp [EList.pop, EList.popAt, h]

/-- C3 witness: the two distinguishable failures on the concrete empty
list. -/
theorem C3_pop_empty_errors_witness :
    EList.pop ⟨[], []⟩ none =
      .error (.outOfRange "List is empty, cannot pop.") ∧
    EList.pop ⟨[], []⟩ (some 0) =
      .error (.outOfRange "Index out of range") ∧
    CppError.outOfRange "List is empty, cannot pop." ≠
      CppError.outOfRange "Index out of range" :=
  C3_pop_empty_errors ⟨[], []⟩ rfl

/-- C4: for every list and valid index `i`, `pop(i)` returns the value at
slot `i` and removes exactly that slot — the remaining data and
discriminators are the slots before `i` followed by the slots after `i`,
shifted down by one — and the size decreases by exactly one. -/
theorem C4_pop_valid (l : EList) (i : Nat) (h : i < l.data.length) :
    l.pop (some i) =
      .ok (l.data.getD i none,
        ⟨l.data.take i ++ l.data.drop (i + 1),
         l.types.take i ++ l.types.drop (i + 1)⟩) ∧
    EList.size ⟨l.data.take i ++ l.data.drop (i + 1),
                l.types.take i ++ l.types.drop (i + 1)⟩ = l.size - 1 := by
  constructor
  · simp [EList.pop, EList.popAt, h, List.eraseIdx_eq_take_drop_succ]
  · simp only [EList.size, List.length_append, List.length_take, List.length_drop]
    omega

/-- C4 witness: popping index 1 of a concrete three-slot list. -/
theorem C4_pop_valid_witness :
    EList.pop ⟨[some (.dInt 1), some (.dString "x"), some (.dInt 3)],
               [.tInt, .tString, .tInt]⟩ (some 1) =
      .ok (some (.dString "x"),
        ⟨[some (.dInt 1), some (.dInt 3)], [.tInt, .tInt]⟩) ∧
    EList.size ⟨[some (.dInt 1), some (.dInt 3)], [.tInt, .tInt]⟩ = 3 - 1 := by
  have h := C4_pop_valid
    ⟨[some (.dInt 1), some (.dString "x"), some (.dInt 3)],
     [.tInt, .tString, .tInt]⟩ 1 (by decide)
  simpa using h

/-- C7: for every well-formed list, `insert(index, value)` with
`index > size` is a silent no-op — no error, list unchanged — and with
`index ≤ size` the value and its discriminator are placed before position
`index`. -/
theorem C7_insert_out_of_range (l : EList) (i : Nat) (d : Dyn) (hw : l.wf) :
    (l.data.length < i → l.insert i d = l) ∧
    (i ≤ l.data.length →
      (l.insert i d).data = l.data.take i ++ some d :: l.data.drop i ∧
      (l.insert i d).types = l.types.take i ++ d.tag :: l.types.drop i) := by
  constructor
  · intro hgt
    simp [EList.insert, Nat.not_le.mpr hgt]
  · intro hle
    have hw2 : l.data.length = l.types.length := hw
    simp only [EList.insert, if_pos hle]
    exact ⟨insertIdx_split (some d) i l.data hle,
           insertIdx_split d.tag i l.types (by omega)⟩

/-- C7 witness: inserting past the end of a concrete one-slot list is a
no-op, and inserting at position 0 prepends. -/
theorem C7_insert_out_of_range_witness :
    (EList.insert ⟨[some (.dInt 1)], [.tInt]⟩ 5 (.dInt 9) =
      ⟨[some (.dInt 1)], [.tInt]⟩) ∧
    (EList.insert ⟨[some (.dInt 1)], [.tInt]⟩ 0 (.dInt 9)).data =
      [some (.dInt 9), some (.dInt 1)] := by
  have h := C7_insert_out_of_range ⟨[some (.dInt 1)], [.tInt]⟩ 5 (.dInt 9) rfl
  have h0 := C7_insert_out_of_range ⟨[some (.dInt 1)], [.tInt]⟩ 0 (.dInt 9) rfl
  exact ⟨h.1 (by decide), by simpa using (h0.2 (by decide)).1⟩

/-- C6 counterexample: on the concrete one-slot list holding a text value,
`get<int>` with the out-of-bounds index 1 produces exactly the same error as
`get<int>` with the in-bounds type-mismatching index 0 — the single
`std::bad_any_cast` throw — so out-of-bounds `get` does not fail with a
distinct IndexOutOfRange error kind. -/
theorem C6_get_counterexample :
    EList.get ⟨[some (.dString "x")], [.tString]⟩ .tInt 1 =
      EList.get ⟨[some (.dString "x")], [.tString]⟩ .tInt 0 ∧
    EList.get ⟨[some (.dString "x")], [.tString]⟩ .tInt 1 =
      .error .badAnyCast := by
  decide

/-- C6 (amended): `get<T>(index)` fails with the TypeMismatch error
(`std::bad_any_cast`) both when the index is in bounds but the recorded
discriminator is not `T`, and when the index is out of bounds; the two
failures produce the identical error value and are not distinguishable. -/
theorem C6_get_errors (l : EList) (t : Ty) (i : Nat) :
    (l.data.length ≤ i → l.get t i = .error .badAnyCast) ∧
    (i < l.data.length → l.types.getD i (.tOther 0) ≠ t →
      l.get t i = .error .badAnyCast) := by
  constructor
  · intro hge
    have hno : ¬ (i < l.data.length ∧ l.types.getD i (.tOther 0) = t) := by
      intro hc
      omega
    unfold EList.get
    rw [if_neg hno]
  · intro hlt hne
    have hno : ¬ (i < l.data.length ∧ l.types.getD i (.tOther 0) = t) := by
      intro hc
      exact hne hc.2
    unfold EList.get
    rw [if_neg hno]

/-- C6 witness: both failure paths of `get` on concrete lists. -/
theorem C6_get_errors_witness :
    EList.get ⟨[], []⟩ .tInt 0 = .error .badAnyCast ∧
    EList.get ⟨[some (.dInt 5)], [.tInt]⟩ .tDouble 0 = .error .badAnyCast :=
  ⟨(C6_get_errors ⟨[], []⟩ .tInt 0).1 (by decide),
   (C6_get_errors ⟨[some (.dInt 5)], [.tInt]⟩ .tDouble 0).2 (by decide)
     (by decide)⟩

/-- C8: for a read-oriented mode (`READ` or `READ_E`), `open` on a
non-existing path throws `FileNotExistError` with the native open not yet
attempted; on an existing path without combined read/write permission it
throws `FilePermissionError`, again before the native open; and for any
mode, when the native `fopen_s` call is reached and fails, `open` throws
`FileUnknownError`. -/
theorem C8_open_errors (os : OS) (filename method : String) :
    ((method = READ ∨ method = READ_E) → is_exist os filename = false →
      openFile os filename method =
        ⟨false, .error (.fileNotExist (fileNotExistMessage filename))⟩) ∧
    ((method = READ ∨ method = READ_E) → is_exist os filename = true →
      check_permission os filename = false →
      openFile os filename method =
        ⟨false, .error (.filePermission (filePermissionMessage filename))⟩) ∧
    ((openFile os filename method).nativeAttempted = true →
      os.fopenOk filename method = false →
      (openFile os filename method).result =
        .error (.fileUnknown (fileUnknownMessage filename))) := by
  refine ⟨?_, ?_, ?_⟩
  · intro hm hex
    simp [openFile, hm, hex]
  · intro hm hex hperm
    simp [openFile, hm, hex, hperm]
  · intro hatt hfail
    unfold openFile
    split
    · split
      · exfalso
        rename_i hm hex
        simp [openFile, hm, hex] at hatt
      · split
        · exfalso
          rename_i hm hex hperm
          simp [openFile, hm, hex, hperm] at hatt
        · simp [nativeOpen, hfail]
    · simp [nativeOpen, hfail]

/-- C8 witness: the three failures on a concrete environment and path. -/
theorem C8_open_errors_witness :
    (openFile ⟨fun _ _ => false, fun _ _ => false⟩ "missing.txt" READ =
      ⟨false, .error (.fileNotExist (fileNotExistMessage "missing.txt"))⟩) ∧
    (openFile ⟨fun _ _ => true, fun _ _ => false⟩ "x.txt" WRITE).result =
      .error (.fileUnknown (fileUnknownMessage "x.txt")) :=
  ⟨(C8_open_errors ⟨fun _ _ => false, fun _ _ => false⟩ "missing.txt" READ).1
      (Or.inl rfl) rfl,
   (C8_open_errors ⟨fun _ _ => true, fun _ _ => false⟩ "x.txt" WRITE).2.2
      rfl rfl⟩

/-- Scenario list from the specification: `[int 5, text "five", float 5.0]`
(the floating payload `5.0` is the opaque double code `50`). -/
def scenarioList : EList :=
  ⟨[some (.dInt 5), some (.dString "five"), some (.dDouble 50)],
   [.tInt, .tString, .tDouble]⟩

/-- C2: `index` and `count` use type-qualified comparison: a successful
`index` search returns a position at or after `start` whose recorded
discriminator is exactly the searched `typeid(T)` and whose stored value is
the searched value; on the list `[int 5, text "five", float 5.0]`, `index`
of integer 5 returns slot 0 — not slot 2, which holds floating 5.0 — and
`count` of floating 5.0 returns 1. -/
theorem C2_type_qualified_search (l : EList) (d : Dyn) (s j : Nat) :
    (l.index d s = .ok j →
      s ≤ j ∧ l.types.getD j (.tOther 0) = d.tag ∧
        l.data.getD j none = some d) ∧
    (scenarioList.index (.dInt 5) 0 = .ok 0 ∧
     scenarioList.index (.dInt 5) 0 ≠ .ok 2 ∧
     scenarioList.count (.dDouble 50) = 1) :=
  ⟨fun h => index_ok_spec l d s j h, by decide⟩

/-- C2 witness: the type-qualified match conditions at the concrete hit of
`index(5)` on the scenario list. -/
theorem C2_type_qualified_search_witness :
    0 ≤ 0 ∧ scenarioList.types.getD 0 (.tOther 0) = (Dyn.dInt 5).tag ∧
      scenarioList.data.getD 0 none = some (.dInt 5) :=
  (C2_type_qualified_search scenarioList (.dInt 5) 0 0).1 (by decide)

/-- C10: `remove<T>(value)` selects the first slot whose stored value has
dynamic type `T` and compares equal, without consulting the recorded
discriminator: the erase happens at the position found by a data-only scan,
the resulting data does not depend on the discriminator vector at all, and
when the hit slot's discriminator differs from `typeid(T)` that same slot
is skipped by `index` (never returned) and by `count` (the type-qualified
count stays strictly below the data-only match count). -/
theorem C10_remove_ignores_discriminator (l : EList) (d : Dyn) (j : Nat) :
    (l.data.findIdx? (fun a => decide (a = some d)) = some j →
      (l.remove d).data = l.data.eraseIdx j ∧
      (l.remove d).types = l.types.eraseIdx j) ∧
    (∀ types2 : List Ty,
      (EList.remove ⟨l.data, types2⟩ d).data = (l.remove d).data) ∧
    (l.data.getD j none = some d → l.types.getD j (.tOther 0) ≠ d.tag →
      (∀ s k, l.index d s = .ok k → k ≠ j) ∧
      l.count d <
        ((List.range l.data.length).filter
          (fun i => decide (l.data.getD i none = some d))).length) := by
  refine ⟨?_, ?_, ?_⟩
  · intro hf
    simp [EList.remove, hf]
  · intro types2
    unfold EList.remove
    cases hf : l.data.findIdx? (fun a => decide (a = some d)) <;> simp [hf]
  · intro hdata htype
    constructor
    · intro s k hk
      obtain ⟨-, ht, -⟩ := index_ok_spec l d s k hk
      intro hkj
      exact htype (hkj ▸ ht)
    · have hj : j < l.data.length := by
        by_contra hge
        rw [List.getD_eq_getElem?_getD, List.getElem?_eq_none (by omega)] at hdata
        simp at hdata
      unfold EList.count
      rw [← List.countP_eq_length_filter, ← List.countP_eq_length_filter]
      refine countP_lt_of_gap _ _ (List.range l.data.length)
        (fun x _ hx => ?_) j (List.mem_range.mpr hj) (by simpa using hdata)
        (by simp only [decide_eq_false htype, Bool.false_and])
      exact (Bool.and_eq_true_iff.mp hx).2

/-- C10 witness: on the concrete list whose single slot stores integer 5
under a floating discriminator, `remove` of integer 5 removes the slot, yet
the type-qualified `count` of integer 5 sees strictly fewer matches than
the data-only scan. -/
theorem C10_remove_ignores_discriminator_witness :
    (EList.remove ⟨[some (.dInt 5)], [.tDouble]⟩ (.dInt 5)).data = [] ∧
    EList.count ⟨[some (.dInt 5)], [.tDouble]⟩ (.dInt 5) < 1 := by
  have h := C10_remove_ignores_discriminator
    ⟨[some (.dInt 5)], [.tDouble]⟩ (.dInt 5) 0
  have hc := (h.2.2 (by decide) (by decide)).2
  exact ⟨by simpa using (h.1 (by decide)).1, lt_of_lt_of_le hc (by decide)⟩

/-- When every engaged slot of the remaining suffix carries the
discriminator of its stored dynamic type, and the final slot of the suffix
is an empty `std::any`, the `join` loop ends by discarding everything
accumulated and returns the empty string. -/
lemma joinGo_reset (types : List Ty) (sep : String) :
    ∀ (rest : List (Option Dyn)) (s : Nat) (acc : String),
      (∀ k d, rest.getD k none = some d →
        types.getD (s + k) (.tOther 0) = d.tag) →
      rest.getLast? = some none →
      EList.joinGo types sep rest s acc = .ok ""
  | [], s, acc, _, hlast => by simp at hlast
  | [a], s, acc, _, hlast => by
      obtain rfl : a = none := by simpa using hlast
      simp [EList.joinGo]
  | a :: b :: rest, s, acc, hcons, hlast => by
      have hlast2 : (b :: rest).getLast? = some none := by
        simpa using hlast
      have hcons2 : ∀ k d, (b :: rest).getD k none = some d →
          types.getD (s + 1 + k) (.tOther 0) = d.tag := by
        intro k d h
        have := hcons (k + 1) d (by simpa using h)
        simpa [Nat.add_assoc, Nat.add_comm 1 k] using this
      have hrec := joinGo_reset types sep (b :: rest) (s + 1)
      cases a with
      | none =>
          rw [EList.joinGo]
          exact hrec "" hcons2 hlast2
      | some d =>
          have htag : types.getD s (.tOther 0) = d.tag := by
            simpa using hcons 0 d (by simp)
          obtain ⟨piece, hp⟩ : ∃ piece, EList.renderSlot d.tag d = .ok piece := by
            cases d <;> exact ⟨_, rfl⟩
          rw [EList.joinGo, htag, hp]
          exact hrec _ hcons2 hlast2

/-- C5 counterexample: the concrete discriminator-consistent list
`[int 5, empty, int 7]` contains an empty slot, yet `join(",")` returns
`",7"`, not the empty text — the reset only discards what was accumulated
before the empty slot, and later slots are still rendered. -/
theorem C5_join_counterexample :
    (EList.data ⟨[some (.dInt 5), none, some (.dInt 7)],
        [.tInt, .tInt, .tInt]⟩).getD 1 (some (.dInt 0)) = none ∧
    EList.join ⟨[some (.dInt 5), none, some (.dInt 7)],
        [.tInt, .tInt, .tInt]⟩ "," = .ok ",7" := by
  decide

/-- C5 (amended): for every discriminator-consistent list whose final slot
is an empty `std::any`, `join(separator)` returns the empty text; an empty
slot at a non-final position only resets the text accumulated so far, and
later slots are still rendered after it. -/
theorem C5_join_empty_last_slot (l : EList) (sep : String)
    (hcons : EList.consistent l) (hlast : l.data.getLast? = some none) :
    l.join sep = .ok "" := by
  unfold EList.join
  exact joinGo_reset l.types sep l.data 0 ""
    (fun k d h => by simpa using hcons k d h) hlast

/-- C5 witness: join on the concrete list `[int 5, empty]`. -/
theorem C5_join_empty_last_slot_witness :
    EList.join ⟨[some (.dInt 5), none], [.tInt, .tInt]⟩ "," = .ok "" :=
  C5_join_empty_last_slot ⟨[some (.dInt 5), none], [.tInt, .tInt]⟩ ","
    (fun k d h => by
      match k with
      | 0 =>
          obtain rfl : Dyn.dInt 5 = d := by simpa using h
          rfl
      | 1 => simp at h
      | n + 2 => simp at h)
    rfl

/-- Successful outcome of the bounds-checked tail of `pop`: the index was
in range, the returned value is the stored one, and the erase hit the same
position of both vectors. -/
lemma popAt_ok (l : EList) (i : Nat) (r : Option Dyn) (l2 : EList)
    (h : l.popAt i = .ok (r, l2)) :
    i < l.data.length ∧ r = l.data.getD i none ∧
      l2 = ⟨l.data.eraseIdx i, l.types.eraseIdx i⟩ := by
  unfold EList.popAt at h
  split at h
  · rename_i hlt
    simp only [Except.ok.injEq, Prod.mk.injEq] at h
    exact ⟨hlt, h.1.symm, h.2.symm⟩
  · simp at h

/-- C1: every `List` operation (`append`, `extend`, `insert`, `remove`,
`pop`, `clear`, `reverse`) preserves the lockstep invariant: starting from
states whose value sequence and discriminator sequence have equal length,
the two sequences again have equal length afterwards, and the zipped slot
sequence undergoes the corresponding sequence operation, so each slot keeps
its value and its discriminator together. -/
theorem C1_lockstep_invariant (l other : EList) (d : Dyn) (i : Nat)
    (idx : Option Nat) (hl : l.wf) (ho : other.wf) :
    ((l.append d).wf ∧ (l.append d).slots = l.slots ++ [(some d, d.tag)]) ∧
    ((l.extend other).wf ∧
      (l.extend other).slots = l.slots ++ other.slots) ∧
    ((l.insert i d).wf ∧
      (l.insert i d).slots =
        if i ≤ l.data.length then l.slots.insertIdx i (some d, d.tag)
        else l.slots) ∧
    ((l.remove d).wf ∧
      (∀ j, l.data.findIdx? (fun a => decide (a = some d)) = some j →
        (l.remove d).slots = l.slots.eraseIdx j) ∧
      (l.data.findIdx? (fun a => decide (a = some d)) = none →
        l.remove d = l)) ∧
    (∀ r l2, l.pop idx = .ok (r, l2) →
      l2.wf ∧ ∃ j, l2.slots = l.slots.eraseIdx j) ∧
    (l.clear.wf ∧ l.clear.slots = []) ∧
    (l.reverse.wf ∧ l.reverse.slots = l.slots.reverse) := by
  have hl2 : l.data.length = l.types.length := hl
  have ho2 : other.data.length = other.types.length := ho
  refine ⟨⟨?_, ?_⟩, ⟨?_, ?_⟩, ⟨?_, ?_⟩, ⟨?_, ?_, ?_⟩, ?_, ⟨rfl, rfl⟩, ⟨?_, ?_⟩⟩
  · show (l.append d).data.length = (l.append d).types.length
    simp [EList.append, hl2]
  · simp only [EList.slots, EList.append]
    rw [List.zip_append hl2]
    rfl
  · show (l.extend other).data.length = (l.extend other).types.length
    simp [EList.extend, hl2, ho2]
  · simp only [EList.slots, EList.extend]
    rw [List.zip_append hl2]
  · show (l.insert i d).data.length = (l.insert i d).types.length
    by_cases hle : i ≤ l.data.length
    · simp only [EList.insert, if_pos hle]
      rw [List.length_insertIdx i l.data hle,
        List.length_insertIdx i l.types (by omega), hl2]
    · simp only [EList.insert, if_neg hle]
      exact hl2
  · by_cases hle : i ≤ l.data.length
    · simp only [EList.insert, if_pos hle, EList.slots]
      rw [zip_insertIdx (some d) d.tag i l.data l.types hl2 hle]
    · simp only [EList.insert, if_neg hle, EList.slots, if_neg hle]
  · show (l.remove d).data.length = (l.remove d).types.length
    unfold EList.remove
    cases hf : l.data.findIdx? (fun a => decide (a = some d)) with
    | none => exact hl2
    | some j =>
      have hj : j < l.data.length :=
        (List.findIdx?_eq_some_iff_findIdx_eq.mp hf).1
      simp only
      rw [List.length_eraseIdx, List.length_eraseIdx]
      simp only [if_pos hj, if_pos (show j < l.types.length by omega)]
      omega
  · intro j hf
    simp only [EList.remove, hf, EList.slots]
    exact zip_eraseIdx j l.data l.types hl2
  · intro hf
    simp [EList.remove, hf]
  · intro r l2 hp
    have hspec : ∃ j, j < l.data.length ∧
        l2 = ⟨l.data.eraseIdx j, l.types.eraseIdx j⟩ := by
      cases idx with
      | some i0 =>
        obtain ⟨hlt, -, rfl⟩ := popAt_ok l i0 r l2 hp
        exact ⟨i0, hlt, rfl⟩
      | none =>
        unfold EList.pop at hp
        split at hp
        · split at hp
          · simp at hp
          · obtain ⟨hlt, -, rfl⟩ := popAt_ok l (l.data.length - 1) r l2 hp
            exact ⟨l.data.length - 1, hlt, rfl⟩
        · rename_i i0 heq
          exact Option.noConfusion heq
    obtain ⟨j, hjlt, rfl⟩ := hspec
    constructor
    · show (l.data.eraseIdx j).length = (l.types.eraseIdx j).length
      rw [List.length_eraseIdx, List.length_eraseIdx]
      simp only [if_pos hjlt, if_pos (show j < l.types.length by omega)]
      omega
    · exact ⟨j, zip_eraseIdx j l.data l.types hl2⟩
  · show l.reverse.data.length = l.reverse.types.length
    simp [EList.reverse, hl2]
  · simp only [EList.slots, EList.reverse]
    exact zip_reverse l.data l.types hl2

/-- C1 witness: lockstep outcomes of `append` and `reverse` on a concrete
one-slot list. -/
theorem C1_lockstep_invariant_witness :
    ((EList.append ⟨[some (.dInt 1)], [.tInt]⟩ (.dString "a")).wf ∧
      (EList.append ⟨[some (.dInt 1)], [.tInt]⟩ (.dString "a")).slots =
        (⟨[some (.dInt 1)], [.tInt]⟩ : EList).slots ++
          [(some (.dString "a"), (Dyn.dString "a").tag)]) ∧
    ((⟨[some (.dInt 1)], [.tInt]⟩ : EList).reverse.wf ∧
      (⟨[some (.dInt 1)], [.tInt]⟩ : EList).reverse.slots =
        (⟨[some (.dInt 1)], [.tInt]⟩ : EList).slots.reverse) := by
  have h := C1_lockstep_invariant ⟨[some (.dInt 1)], [.tInt]⟩
    ⟨[], []⟩ (.dString "a") 0 none rfl rfl
  exact ⟨h.1, h.2.2.2.2.2.2⟩

end EasyCpp
